import Mathlib

/-!
Shallow embedding of `src/instalooter/looters.py` (class `InstaLooter` and the
`PostLooter` override), covering the discovery / filter / dedup engine
`_fill_media_queue`, the destination-filesystem lifecycle of `download` and
`_init_destfs`, and the worker-pool helpers `_init_workers`, `_poison_workers`
and `_join_workers`.

Python media dictionaries become the inductive `Media`; external collaborators
(the `NameGenerator` from `_utils.py`, the remote fetch behind
`get_post_info`, the pyfilesystem `FS` object) become function-valued fields
so that theorems quantify over their behaviour.
-/

set_option autoImplicit false

/-- A media dictionary, as consumed by `InstaLooter._fill_media_queue`
(`looters.py`).  The fields the code reads are `media["__typename"]`,
`media["is_video"]`, `media["shortcode"]` and
`media['edge_sidecar_to_children']['edges']`; each element of `edges` stands
for an edge's `'node'` entry (the edge wrapper dict has no other field used
by the code). -/
inductive Media : Type where
  | mk : String → Bool → String → List Media → Media

/-- `media["__typename"]` -/
def Media.typename : Media → String
  | .mk t _ _ _ => t

/-- `media["is_video"]` -/
def Media.is_video : Media → Bool
  | .mk _ v _ _ => v

/-- `media["shortcode"]` -/
def Media.shortcode : Media → String
  | .mk _ _ s _ => s

/-- `media['edge_sidecar_to_children']['edges']` (as the list of nodes) -/
def Media.edges : Media → List Media
  | .mk _ _ _ e => e

/-- Replace the `edge_sidecar_to_children.edges` list of a media dict
(in-place mutation in the Python code). -/
def Media.withEdges : Media → List Media → Media
  | .mk t v s _, e => .mk t v s e

mutual

/-- Structural (value) equality of media dictionaries, the `==` Python uses
in `list.remove`. -/
def Media.beq : Media → Media → Bool
  | .mk t1 v1 s1 e1, .mk t2 v2 s2 e2 =>
      t1 == t2 && v1 == v2 && s1 == s2 && Media.beqList e1 e2

/-- Pointwise equality of lists of media dictionaries. -/
def Media.beqList : List Media → List Media → Bool
  | [], [] => true
  | a :: as, b :: bs => Media.beq a b && Media.beqList as bs
  | _, _ => false

end

theorem Media.withEdges_typename (m : Media) (e : List Media) :
    (m.withEdges e).typename = m.typename := by
  cases m; rfl

theorem Media.withEdges_is_video (m : Media) (e : List Media) :
    (m.withEdges e).is_video = m.is_video := by
  cases m; rfl

theorem Media.withEdges_shortcode (m : Media) (e : List Media) :
    (m.withEdges e).shortcode = m.shortcode := by
  cases m; rfl

theorem Media.withEdges_edges (m : Media) (e : List Media) :
    (m.withEdges e).edges = e := by
  cases m; rfl

mutual

theorem Media.beq_iff : ∀ a b : Media, Media.beq a b = true ↔ a = b
  | .mk t1 v1 s1 e1, .mk t2 v2 s2 e2 => by
      rw [Media.beq]
      simp only [Bool.and_eq_true, beq_iff_eq, Media.beqList_iff e1 e2,
        Media.mk.injEq]
      tauto

theorem Media.beqList_iff : ∀ l1 l2 : List Media, Media.beqList l1 l2 = true ↔ l1 = l2
  | [], [] => by simp [Media.beqList]
  | [], _ :: _ => by simp [Media.beqList]
  | _ :: _, [] => by simp [Media.beqList]
  | a :: as, b :: bs => by
      rw [Media.beqList]
      simp only [Bool.and_eq_true, Media.beq_iff a b, Media.beqList_iff as bs,
        List.cons.injEq]

end

instance : BEq Media := ⟨Media.beq⟩

instance : LawfulBEq Media where
  eq_of_beq h := (Media.beq_iff _ _).mp h
  rfl := (Media.beq_iff _ _).mpr rfl

instance : DecidableEq Media :=
  fun a b => decidable_of_iff _ (Media.beq_iff a b)

/-- The destination filesystem object (pyfilesystem `FS`): the only method
`_fill_media_queue` calls on it is `exists` (line 576). -/
structure FS where
  exists_ : String → Bool

/-- The looter state set up by `InstaLooter.__init__` (lines 193-240), with
the external collaborators it talks to modelled as functions:
`needs_extended` and `file` are the two methods of the `NameGenerator`
collaborator (`self.namegen`, built in `__init__` from `template`; defined in
`_utils.py`), and `get_post_info` is the remote single-post fetch
`InstaLooter.get_post_info` (lines 282-297), whose value is the remote
server's response for a shortcode. -/
structure InstaLooter where
  add_metadata : Bool
  get_videos : Bool
  videos_only : Bool
  jobs : Nat
  dump_json : Bool
  dump_only : Bool
  extended_dump : Bool
  needs_extended : Media → Bool
  file : Media → String
  get_post_info : String → Media

/-- `InstaLooter.__init__` (lines 193-240): `self.get_videos = get_videos or
videos_only` (line 232) and `self.dump_json = dump_json or dump_only`
(line 237); the other flags are stored as passed.  Session/cookie handling is
external I/O with no bearing on the claims. -/
def InstaLooter.init (add_metadata get_videos videos_only : Bool) (jobs : Nat)
    (dump_json dump_only extended_dump : Bool)
    (needs_extended : Media → Bool) (file : Media → String)
    (get_post_info : String → Media) : InstaLooter where
  add_metadata := add_metadata
  get_videos := get_videos || videos_only
  videos_only := videos_only
  jobs := jobs
  dump_json := dump_json || dump_only
  dump_only := dump_only
  extended_dump := extended_dump
  needs_extended := needs_extended
  file := file
  get_post_info := get_post_info

/-- Lines 546-553 of `_fill_media_queue`: the condition built from the
`videos_only` / `get_videos` flags when the caller passes none. -/
def default_condition (L : InstaLooter) : Media → Bool :=
  if L.videos_only then fun media => media.is_video
  else if !L.get_videos then fun media => !media.is_video
  else fun _ => true

/-- One pass of the child-pruning loop in `_fill_media_queue` (lines 566-568):
iterate over a snapshot copy of the `edges` list while calling `list.remove`
(remove the first equal element) on the original for every child node failing
the condition.  `copy` is the remaining part of the snapshot, `edges` the
current state of the mutated list. -/
def prune_loop (condition : Media → Bool) :
    List Media → List Media → List Media
  | [], edges => edges
  | sidecar :: copy, edges =>
      prune_loop condition copy
        (if condition sidecar then edges else edges.erase sidecar)

/-- Lines 566-568 of `_fill_media_queue`: filter the sidecar children in
place against the condition. -/
def prune_edges (condition : Media → Bool) (edges : List Media) : List Media :=
  prune_loop condition edges edges

/-- Lines 559-561 of `_fill_media_queue`: replace the record by the full post
info when the name generator needs extended data or the record is not a plain
`GraphImage` summary. -/
def refetch (L : InstaLooter) (media : Media) : Media :=
  if L.needs_extended media || media.typename != "GraphImage" then
    L.get_post_info media.shortcode
  else media

/-- Lines 564-568 of `_fill_media_queue`: prune the children of a
`GraphSidecar` record in place; leave any other record unchanged. -/
def sidecar_adjust (condition : Media → Bool) (media : Media) : Media :=
  if media.typename == "GraphSidecar" then
    media.withEdges (prune_edges condition media.edges)
  else media

/-- What one iteration of the `for media in filter(condition, medias_iter)`
loop body does with its item: skip it (the filter rejected it or a sidecar
was depleted, Python `continue`), halt the whole fill (Python `break` at the
`new_only` existence check), or put a record on the queue. -/
inductive StepOut : Type where
  | skip : StepOut
  | halt : StepOut
  | enq : Media → StepOut
  deriving DecidableEq

/-- The body of the discovery loop of `_fill_media_queue` (lines 557-578) for
one item: the implicit condition check of `six.moves.filter` (line 557), the
extended-info refetch (lines 559-561), the sidecar child pruning and
depletion check (lines 563-572), and the existence / `new_only` check
(lines 574-578). -/
def fill_step (L : InstaLooter) (destination : FS) (condition : Media → Bool)
    (new_only : Bool) (media : Media) : StepOut :=
  if !condition media then .skip
  else
    let media1 := refetch L media
    let media2 := sidecar_adjust condition media1
    if media1.typename == "GraphSidecar" && media2.edges.isEmpty then .skip
    else if destination.exists_ (L.file media2) && new_only then .halt
    else .enq media2

/-- Line 584: `media_count is not None and medias_queued >= media_count`. -/
def count_reached : Option Nat → Nat → Bool
  | none, _ => false
  | some media_count, medias_queued => media_count ≤ medias_queued

/-- The discovery loop of `_fill_media_queue` (lines 556-587) over the media
sequence, carrying the queue contents (in `queue.put` order) and the
`medias_queued` counter. -/
def fill_loop (L : InstaLooter) (destination : FS) (condition : Media → Bool)
    (media_count : Option Nat) (new_only : Bool) :
    List Media → List Media → Nat → List Media × Nat
  | [], queue, medias_queued => (queue, medias_queued)
  | media :: rest, queue, medias_queued =>
      match fill_step L destination condition new_only media with
      | .skip =>
          fill_loop L destination condition media_count new_only rest
            queue medias_queued
      | .halt => (queue, medias_queued)
      | .enq m =>
          if count_reached media_count (medias_queued + 1) then
            (queue ++ [m], medias_queued + 1)
          else
            fill_loop L destination condition media_count new_only rest
              (queue ++ [m]) (medias_queued + 1)

/-- `InstaLooter._fill_media_queue` (lines 513-587).  `queue` is the queue
passed in (its prior contents untouched); the result is the queue's final
contents and the returned `medias_queued` count. -/
def fill_media_queue (L : InstaLooter) (queue : List Media) (destination : FS)
    (medias_iter : List Media) (media_count : Option Nat) (new_only : Bool)
    (condition : Option (Media → Bool)) : List Media × Nat :=
  let C : Media → Bool :=
    match condition with
    | none => default_condition L
    | some c => c
  fill_loop L destination C media_count new_only medias_iter queue 0

/-- The record as it stands right before the existence check of line 576:
after the refetch of lines 559-561 and the sidecar pruning of lines 564-568. -/
def processed (L : InstaLooter) (condition : Media → Bool) (media : Media) :
    Media :=
  sidecar_adjust condition (refetch L media)

/-- A record survives the sidecar-depletion check of lines 570-572 when it is
not a sidecar whose pruned child list came out empty. -/
def survives (L : InstaLooter) (condition : Media → Bool) (media : Media) :
    Bool :=
  !((refetch L media).typename == "GraphSidecar"
      && (prune_edges condition (refetch L media).edges).isEmpty)

/-- A record the discovery loop accepts: it matches the condition and
survives pruning.  With `new_only = False` these are exactly the records
enqueued. -/
def acceptable (L : InstaLooter) (condition : Media → Bool) (media : Media) :
    Bool :=
  condition media && survives L condition media

/-- The `destination` argument of `download`: an FS URL string or an
already-open filesystem instance (`Union[str, FS]`). -/
inductive Destination : Type where
  | url : String → Destination
  | fsi : FS → Destination

/-- `InstaLooter._init_destfs` (lines 489-511): a string URL is opened with
`fs.open_fs` (the `open_fs` oracle) and marked to be closed
(`close_destination = True`); an instance is returned as-is and not closed.
The `bytes` branch of the source only decodes to `str` first, and the
`TypeError` branch is unreachable on this argument type. -/
def init_destfs (open_fs : String → FS) : Destination → FS × Bool
  | .url s => (open_fs s, true)
  | .fsi f => (f, false)

/-- The outcome of a `download` call that the claims are about: the returned
count, the queue contents handed to the workers, whether the
"No medias found." warning was issued (lines 425-426), and whether the
destination filesystem was closed before returning (lines 436-437). -/
structure DownloadResult where
  medias_queued : Nat
  queued : List Media
  warned : Bool
  destination_closed : Bool

/-- `InstaLooter.download` (lines 349-439) restricted to the state the claims
mention.  `medias` is the sequence produced by the page iterator and
`self._medias` (external pagination collaborators behind `self.pages()`);
progress bars, the `atexit` hook and worker side effects do not change these
fields (the worker pool is modelled separately below). -/
def download (L : InstaLooter) (open_fs : String → FS)
    (destination : Destination) (medias : List Media)
    (condition : Option (Media → Bool)) (media_count : Option Nat)
    (new_only : Bool) : DownloadResult :=
  let dest := init_destfs open_fs destination
  let r := fill_media_queue L [] dest.1 medias media_count new_only condition
  { medias_queued := r.2
    queued := r.1
    warned := r.2 == 0
    destination_closed := dest.2 }

/-- `PostLooter.download` (lines 709-739): fills a fresh queue from the
single post `info` (`self.medias()` yields exactly `self.info`), runs one
worker inline, and returns the count.  It computes `close_destination` from
`_init_destfs` (line 720) but never closes the destination, and it has no
"No medias found." warning path. -/
def post_looter_download (L : InstaLooter) (open_fs : String → FS)
    (destination : Destination) (info : Media)
    (condition : Option (Media → Bool)) (media_count : Option Nat)
    (new_only : Bool) : DownloadResult :=
  let dest := init_destfs open_fs destination
  let r := fill_media_queue L [] dest.1 [info] media_count new_only condition
  { medias_queued := r.2
    queued := r.1
    warned := false
    destination_closed := false }

/-- `InstaLooter._init_workers` (lines 591-613): starts `self.jobs`
`InstaDownloader` threads (represented by their indices) sharing one fresh
queue.  A queue item is `some media` for a record to download and `none` for
the Sentinel poison pill (`queue.put(None)`). -/
def init_workers (L : InstaLooter) : List Nat × List (Option Media) :=
  (List.range L.jobs, [])

/-- `InstaLooter._poison_workers` (lines 615-618): `queue.put(None)` once per
worker in the list. -/
def poison_workers (workers : List Nat) (queue : List (Option Media)) :
    List (Option Media) :=
  queue ++ workers.map (fun _ => (none : Option Media))

/-- Modelled from the spec: the `InstaDownloader` worker loop (`worker.py`,
not under `src/`) — "QueueItem: either a MediaRecord to download or a
Sentinel (poison pill) signaling no more work to exactly one worker";
"dequeue ...; if Sentinel, terminate"; "a worker terminates after consuming
exactly one Sentinel and never resumes".  `stream` is the part of the shared
queue this worker dequeues; the result is (sentinels consumed, records
processed, whether the worker exited).  An exhausted stream without a
Sentinel leaves the worker blocked on the dequeue, hence not exited. -/
def worker_run : List (Option Media) → Nat × List Media × Bool
  | [] => (0, [], false)
  | none :: _ => (1, [], true)
  | some media :: rest =>
      let r := worker_run rest
      (r.1, media :: r.2.1, r.2.2)

/-- Modelled from the spec: `InstaLooter._join_workers` (lines 620-624) blocks
on `worker.join()` (Python threading, not under `src/`) — "a join/wait call
returns only once all have exited".  The join call returns exactly when every
worker's run has exited. -/
def join_all (streams : List (List (Option Media))) : Bool :=
  streams.all (fun st => (worker_run st).2.2)

/-- The "images only" condition of `download_pictures` (line 316) and of the
spec §8 scenarios: `lambda media: not media["is_video"]`. -/
def images_only : Media → Bool := fun media => !media.is_video

def img1 : Media := .mk "GraphImage" false "img1" []

def vid1 : Media := .mk "GraphVideo" true "vid1" []

def img2 : Media := .mk "GraphImage" false "img2" []

def img3 : Media := .mk "GraphImage" false "img3" []

def child_img : Media := .mk "GraphImage" false "child_img" []

def child_vid : Media := .mk "GraphVideo" true "child_vid" []

def sidecar1 : Media := .mk "GraphSidecar" false "sidecar1" [child_img, child_vid]

/-- Remote-fetch oracle for the scenario: the detailed form of `sidecar1` is
itself; any other shortcode maps to a plain image with that shortcode. -/
def scenario_info : String → Media := fun code =>
  if code == "sidecar1" then sidecar1 else .mk "GraphImage" false code []

/-- The scenario looter: `jobs=2`, all flags off, an id-style name template
that needs no extended info and names a record by its shortcode. -/
def scenario_looter : InstaLooter :=
  InstaLooter.init false false false 2 false false false
    (fun _ => false) Media.shortcode scenario_info

/-- Scenario destination: only the artifact of `img2` already exists. -/
def scenario_dest : FS := ⟨fun path => path == "img2"⟩

/-- The spec §8 scenario sequence. -/
def scenario_medias : List Media := [img1, vid1, img2, img3, sidecar1]

/-- Remote oracle that answers every shortcode with a distinct detailed
record (never equal to the summary: the typename differs). -/
def c5_info : String → Media := fun code => .mk "GraphVideo" true code []

/-- A looter constructed with `extended_dump=True` whose name template needs
no extended info on any record. -/
def c5_looter : InstaLooter :=
  InstaLooter.init false false false 1 false false true
    (fun _ => false) Media.shortcode c5_info

/-- A destination where no artifact exists yet. -/
def empty_dest : FS := ⟨fun _ => false⟩

/-- An `fs.open_fs` oracle: every FS URL opens onto an empty filesystem. -/
def open_fs_oracle : String → FS := fun _ => empty_dest

/-- A sidecar that fails the images-only condition itself (`is_video` true)
but has an image child that matches the condition. -/
def sidecar_v : Media := .mk "GraphSidecar" true "sidecar_v" [child_img]

/-- Remote oracle whose detailed records are always videos: it preserves the
video flag of any video record. -/
def c10_gpi : String → Media := fun code => .mk "GraphVideo" true code []

/-- A lightweight video summary record. -/
def c10_vid : Media := .mk "GraphVideo" true "v1" []

/-- The copy-and-remove loop of lines 566-568 computes an in-place filter:
iterating over a snapshot while removing (by value) each failing element
leaves exactly the elements passing the condition, because the elements kept
so far all pass it and `list.remove` drops the first equal element. -/
theorem prune_loop_eq (condition : Media → Bool) (copy : List Media) :
    ∀ pre : List Media, (∀ x ∈ pre, condition x = true) →
      prune_loop condition copy (pre ++ copy) = pre ++ copy.filter condition := by
  induction copy with
  | nil => intro pre _; simp [prune_loop]
  | cons e copy ih =>
    intro pre hpre
    rw [prune_loop]
    by_cases he : condition e = true
    · rw [if_pos he]
      have h1 : pre ++ e :: copy = (pre ++ [e]) ++ copy := by simp
      have h2 : ∀ x ∈ pre ++ [e], condition x = true := by
        intro x hx
        rcases List.mem_append.mp hx with h | h
        · exact hpre x h
        · rw [List.mem_singleton.mp h]; exact he
      rw [h1, ih (pre ++ [e]) h2]
      simp [List.filter_cons, he]
    · rw [if_neg he]
      have hne : e ∉ pre := fun hmem => he (hpre e hmem)
      rw [List.erase_append_right _ hne, List.erase_cons_head]
      rw [ih pre hpre]
      simp [List.filter_cons, he]

/-- Lines 566-568 filter the children list in place. -/
theorem prune_edges_eq_filter (condition : Media → Bool) (edges : List Media) :
    prune_edges condition edges = edges.filter condition := by
  simpa [prune_edges] using prune_loop_eq condition edges [] (by simp)

/-- The loop body of lines 557-578, written through `acceptable` and
`processed`: an item is skipped exactly when it is not acceptable; an
acceptable item halts the fill when its artifact exists and `new_only` is
set, and is enqueued (in processed form) otherwise. -/
theorem fill_step_eq (L : InstaLooter) (destination : FS)
    (condition : Media → Bool) (new_only : Bool) (media : Media) :
    fill_step L destination condition new_only media =
      if acceptable L condition media then
        if destination.exists_ (L.file (processed L condition media)) && new_only
        then .halt
        else .enq (processed L condition media)
      else .skip := by
  by_cases hc : condition media = true
  · by_cases hs : ((refetch L media).typename == "GraphSidecar") = true
    · by_cases he : (prune_edges condition (refetch L media).edges).isEmpty = true
      · simp [fill_step, acceptable, survives, processed, sidecar_adjust, hc, hs,
          he, Media.withEdges_edges]
      · simp [fill_step, acceptable, survives, processed, sidecar_adjust, hc, hs,
          he, Media.withEdges_edges]
    · simp [fill_step, acceptable, survives, processed, sidecar_adjust, hc, hs]
  · simp [fill_step, acceptable, survives, hc]

/-- With `new_only = False` the existence check of lines 574-578 never breaks:
the loop body enqueues every acceptable item and skips the rest. -/
theorem fill_step_no_new_only (L : InstaLooter) (destination : FS)
    (condition : Media → Bool) (media : Media) :
    fill_step L destination condition false media =
      if acceptable L condition media then .enq (processed L condition media)
      else .skip := by
  rw [fill_step_eq]
  by_cases h : acceptable L condition media = true <;> simp [h]

/-- The count `_fill_media_queue` returns equals the number of records it put
on the queue: the counter at line 582 is incremented exactly once per
`queue.put`. -/
theorem fill_loop_count (L : InstaLooter) (destination : FS)
    (condition : Media → Bool) (media_count : Option Nat) (new_only : Bool) :
    ∀ (ms queue : List Media) (n : Nat),
      (fill_loop L destination condition media_count new_only ms queue n).2
          + queue.length
        = (fill_loop L destination condition media_count new_only ms queue n).1.length
          + n := by
  intro ms
  induction ms with
  | nil => intro queue n; simp [fill_loop]; omega
  | cons media rest ih =>
    intro queue n
    rw [fill_loop]
    cases hstep : fill_step L destination condition new_only media with
    | skip => exact ih queue n
    | halt => simp; omega
    | enq m =>
      by_cases hcr : count_reached media_count (n + 1) = true
      · simp [hcr]; omega
      · simp only [hcr, Bool.false_eq_true, if_false]
        have := ih (queue ++ [m]) (n + 1)
        simp at this
        omega

/-- Every record on the final queue either was on the queue initially or was
produced by some `enq` outcome of the loop body: properties of enqueued
records are invariants of the discovery loop. -/
theorem fill_loop_invariant (L : InstaLooter) (destination : FS)
    (condition : Media → Bool) (media_count : Option Nat) (new_only : Bool)
    (P : Media → Prop)
    (hstep : ∀ media m,
      fill_step L destination condition new_only media = .enq m → P m) :
    ∀ (ms queue : List Media) (n : Nat), (∀ q ∈ queue, P q) →
      ∀ q ∈ (fill_loop L destination condition media_count new_only ms queue n).1,
        P q := by
  intro ms
  induction ms with
  | nil => intro queue n hq; simpa [fill_loop] using hq
  | cons media rest ih =>
    intro queue n hq
    rw [fill_loop]
    cases hstep2 : fill_step L destination condition new_only media with
    | skip => exact ih queue n hq
    | halt => simpa using hq
    | enq m =>
      have hq2 : ∀ q ∈ queue ++ [m], P q := by
        intro q hqmem
        rcases List.mem_append.mp hqmem with h | h
        · exact hq q h
        · rw [List.mem_singleton.mp h]; exact hstep media m hstep2
      by_cases hcr : count_reached media_count (n + 1) = true
      · simpa [hcr] using hq2
      · simp only [hcr, Bool.false_eq_true, if_false]
        exact ih (queue ++ [m]) (n + 1) hq2

/-- With `new_only = True`, the loop runs through a prefix of clean items
(acceptable items whose artifacts do not exist yet), enqueueing exactly the
acceptable ones, and the `break` at line 578 stops everything at the first
acceptable item whose artifact exists — whatever follows it is never
consumed. -/
theorem fill_loop_new_only_halts (L : InstaLooter) (destination : FS)
    (condition : Media → Bool) (media_count : Option Nat) (e : Media)
    (hacc : acceptable L condition e = true)
    (hex : destination.exists_ (L.file (processed L condition e)) = true) :
    ∀ (pre post queue : List Media) (n : Nat),
      (∀ m ∈ pre, acceptable L condition m = true →
        destination.exists_ (L.file (processed L condition m)) = false) →
      (∀ k, media_count = some k →
        n + pre.countP (acceptable L condition) < k) →
      fill_loop L destination condition media_count true (pre ++ e :: post)
          queue n
        = (queue ++ (pre.filter (acceptable L condition)).map
              (processed L condition),
           n + pre.countP (acceptable L condition)) := by
  intro pre
  induction pre with
  | nil =>
    intro post queue n _ _
    rw [List.nil_append, fill_loop]
    have hstep : fill_step L destination condition true e = .halt := by
      rw [fill_step_eq]; simp [hacc, hex]
    simp only [hstep]
    simp
  | cons m pre ih =>
    intro post queue n hpre hmc
    rw [List.cons_append, fill_loop]
    have hpre2 : ∀ x ∈ pre, acceptable L condition x = true →
        destination.exists_ (L.file (processed L condition x)) = false :=
      fun x hx => hpre x (List.mem_cons_of_mem m hx)
    by_cases hm : acceptable L condition m = true
    · have hnex := hpre m (by simp) hm
      have hstep : fill_step L destination condition true m
          = .enq (processed L condition m) := by
        rw [fill_step_eq]; simp [hm, hnex]
      simp only [hstep]
      have hcr : count_reached media_count (n + 1) = false := by
        cases media_count with
        | none => rfl
        | some k =>
          have hk := hmc k rfl
          rw [List.countP_cons_of_pos _ _ hm] at hk
          simp [count_reached]
          omega
      simp only [hcr, Bool.false_eq_true, if_false]
      have hmc2 : ∀ k, media_count = some k →
          (n + 1) + pre.countP (acceptable L condition) < k := by
        intro k hk
        have := hmc k hk
        rw [List.countP_cons_of_pos _ _ hm] at this
        omega
      rw [ih post (queue ++ [processed L condition m]) (n + 1) hpre2 hmc2]
      simp only [List.filter_cons, hm, if_true, List.map_cons,
        List.countP_cons_of_pos _ _ hm, List.append_assoc,
        List.singleton_append, Prod.mk.injEq]
      exact ⟨trivial, by omega⟩
    · have hstep : fill_step L destination condition true m = .skip := by
        rw [fill_step_eq]; simp [hm]
      simp only [hstep]
      have hmc2 : ∀ k, media_count = some k →
          n + pre.countP (acceptable L condition) < k := by
        intro k hk
        have := hmc k hk
        rw [List.countP_cons_of_neg _ _ (by simp [hm])] at this
        exact this
      rw [ih post queue n hpre2 hmc2]
      simp only [List.filter_cons, hm, Bool.false_eq_true, if_false,
        List.countP_cons_of_neg _ _ (by simp [hm] : ¬acceptable L condition m = true)]

/-- With `new_only = False` and `media_count = k`, once a prefix of the
sequence holds at least `k - n` more acceptable items, the loop enqueues the
processed forms of the first `k - n` of them, the `break` at lines 584-585
fires right after the one that makes the counter reach `k`, and nothing past
that prefix is consumed. -/
theorem fill_loop_count_reach (L : InstaLooter) (destination : FS)
    (condition : Media → Bool) (k : Nat) :
    ∀ (pre post queue : List Media) (n : Nat), n < k →
      k - n ≤ pre.countP (acceptable L condition) →
      fill_loop L destination condition (some k) false (pre ++ post) queue n
        = (queue ++ ((pre.filter (acceptable L condition)).take (k - n)).map
              (processed L condition),
           k) := by
  intro pre
  induction pre with
  | nil =>
    intro post queue n hn hcount
    simp only [List.countP_nil] at hcount
    omega
  | cons m pre ih =>
    intro post queue n hn hcount
    rw [List.cons_append, fill_loop]
    by_cases hm : acceptable L condition m = true
    · have hstep : fill_step L destination condition false m
          = .enq (processed L condition m) := by
        rw [fill_step_no_new_only]; simp [hm]
      simp only [hstep]
      by_cases hk : k ≤ n + 1
      · have hk2 : k = n + 1 := by omega
        have hcr : count_reached (some k) (n + 1) = true := by
          simp [count_reached]; omega
        simp only [hcr, if_true]
        have htake : k - n = 1 := by omega
        simp only [htake, List.filter_cons, hm, if_true,
          List.take_succ_cons, List.take_zero, List.map_cons, List.map_nil,
          Prod.mk.injEq]
        exact ⟨trivial, by omega⟩
      · have hcr : count_reached (some k) (n + 1) = false := by
          simp [count_reached]; omega
        simp only [hcr, Bool.false_eq_true, if_false]
        have hcount2 : k - (n + 1) ≤ pre.countP (acceptable L condition) := by
          rw [List.countP_cons_of_pos _ _ hm] at hcount
          omega
        rw [ih post (queue ++ [processed L condition m]) (n + 1) (by omega)
          hcount2]
        have htake : k - n = (k - (n + 1)) + 1 := by omega
        simp only [List.filter_cons, hm, if_true, htake, List.take_succ_cons,
          List.map_cons, List.append_assoc, List.singleton_append]
    · have hstep : fill_step L destination condition false m = .skip := by
        rw [fill_step_no_new_only]; simp [hm]
      simp only [hstep]
      have hcount2 : k - n ≤ pre.countP (acceptable L condition) := by
        rw [List.countP_cons_of_neg _ _ (by simp [hm])] at hcount
        exact hcount
      rw [ih post queue n hn hcount2]
      simp only [List.filter_cons, hm, Bool.false_eq_true, if_false]

/-- A record comes out of the loop body as `enq` only in processed form, and
only when it was acceptable. -/
theorem fill_step_enq_inv (L : InstaLooter) (destination : FS)
    (condition : Media → Bool) (new_only : Bool) (media m : Media)
    (h : fill_step L destination condition new_only media = .enq m) :
    m = processed L condition media ∧ acceptable L condition media = true := by
  rw [fill_step_eq] at h
  by_cases hacc : acceptable L condition media = true
  · rw [if_pos hacc] at h
    by_cases hex : (destination.exists_ (L.file (processed L condition media))
        && new_only) = true
    · rw [if_pos hex] at h
      exact absurd h (by simp)
    · rw [if_neg hex] at h
      simp only [StepOut.enq.injEq] at h
      exact ⟨h.symm, hacc⟩
  · rw [if_neg hacc] at h
    exact absurd h (by simp)

/-- The processed form of a record is its refetched form, with the children
list filtered in place exactly when the refetched form is a sidecar. -/
theorem processed_cases (L : InstaLooter) (condition : Media → Bool)
    (media : Media) :
    (processed L condition media = refetch L media
        ∧ ((refetch L media).typename == "GraphSidecar") = false)
    ∨ (processed L condition media
          = (refetch L media).withEdges
              ((refetch L media).edges.filter condition)
        ∧ ((refetch L media).typename == "GraphSidecar") = true) := by
  by_cases hs : ((refetch L media).typename == "GraphSidecar") = true
  · right
    exact ⟨by simp [processed, sidecar_adjust, hs, prune_edges_eq_filter], hs⟩
  · left
    have hs2 : ((refetch L media).typename == "GraphSidecar") = false := by
      simpa using hs
    exact ⟨by simp [processed, sidecar_adjust, hs2], hs2⟩

/-- C1: every record `_fill_media_queue` places on the queue satisfies the
caller's condition, except `GraphSidecar` records: a queued sidecar is some
record with its children filtered in place against the condition (so every
surviving child matches, the matching-children count is never increased, and
the list only shrinks), and a sidecar whose filtered children list is empty
is skipped entirely — neither enqueued nor counted (the returned count equals
the queue length).  Hypothesis `hinfo` is the §6 contract of the external
`get_post_info` collaborator: the detailed form of a record that satisfied
the condition still satisfies it (lines 559-561 replace the record after the
line-557 filter already approved it). -/
theorem fill_queue_satisfies_condition (L : InstaLooter) (destination : FS)
    (medias : List Media) (media_count : Option Nat) (new_only : Bool)
    (condition : Media → Bool)
    (hinfo : ∀ m : Media, condition m = true →
      condition (L.get_post_info m.shortcode) = true) :
    (fill_media_queue L [] destination medias media_count new_only
        (some condition)).2
      = (fill_media_queue L [] destination medias media_count new_only
          (some condition)).1.length
    ∧ ∀ q ∈ (fill_media_queue L [] destination medias media_count new_only
        (some condition)).1,
        (q.typename ≠ "GraphSidecar" → condition q = true)
        ∧ (q.typename = "GraphSidecar" →
            q.edges ≠ [] ∧ (∀ c ∈ q.edges, condition c = true)
            ∧ ∃ m0 : Media, q = m0.withEdges (m0.edges.filter condition)
                ∧ q.edges.countP condition ≤ m0.edges.countP condition
                ∧ q.edges.length ≤ m0.edges.length) := by
  constructor
  · have h := fill_loop_count L destination condition media_count new_only
      medias [] 0
    simpa [fill_media_queue] using h
  · intro q hq
    simp only [fill_media_queue] at hq
    refine fill_loop_invariant L destination condition media_count new_only
      (fun q => (q.typename ≠ "GraphSidecar" → condition q = true)
        ∧ (q.typename = "GraphSidecar" →
            q.edges ≠ [] ∧ (∀ c ∈ q.edges, condition c = true)
            ∧ ∃ m0 : Media, q = m0.withEdges (m0.edges.filter condition)
                ∧ q.edges.countP condition ≤ m0.edges.countP condition
                ∧ q.edges.length ≤ m0.edges.length))
      ?_ medias [] 0 (by simp) q hq
    intro media m2 hstep
    obtain ⟨hm2, hacc⟩ := fill_step_enq_inv L destination condition new_only
      media m2 hstep
    have hc : condition media = true := by
      simp [acceptable] at hacc
      exact hacc.1
    have hsurv : survives L condition media = true := by
      simp [acceptable] at hacc
      exact hacc.2
    have hcr : condition (refetch L media) = true := by
      unfold refetch
      split
      · exact hinfo media hc
      · exact hc
    subst hm2
    rcases processed_cases L condition media with ⟨hpe, hs⟩ | ⟨hpe, hs⟩
    · rw [hpe]
      constructor
      · intro _
        exact hcr
      · intro hcontra
        rw [hcontra] at hs
        simp at hs
    · have hsc : (refetch L media).typename = "GraphSidecar" := by
        simpa using hs
      rw [hpe]
      constructor
      · intro hcontra
        rw [Media.withEdges_typename, hsc] at hcontra
        exact absurd rfl hcontra
      · intro _
        have hne : (refetch L media).edges.filter condition ≠ [] := by
          rw [survives, hs] at hsurv
          simp only [Bool.true_and, Bool.not_eq_true'] at hsurv
          rw [prune_edges_eq_filter] at hsurv
          exact List.isEmpty_eq_false.mp hsurv
        refine ⟨?_, ?_, ⟨refetch L media, rfl, ?_, ?_⟩⟩
        · rw [Media.withEdges_edges]
          exact hne
        · rw [Media.withEdges_edges]
          intro c hcmem
          exact (List.mem_filter.mp hcmem).2
        · rw [Media.withEdges_edges, List.countP_filter]
          simp [Bool.and_self]
        · rw [Media.withEdges_edges]
          exact List.length_filter_le _ _

/-- Witness for C1 at a concrete input: the count equals the queue length and
the queued image satisfies the images-only condition. -/
theorem fill_queue_satisfies_condition_witness :
    (fill_media_queue scenario_looter [] empty_dest [img1, sidecar1] none
        false (some images_only)).2
      = (fill_media_queue scenario_looter [] empty_dest [img1, sidecar1] none
          false (some images_only)).1.length
    ∧ images_only img1 = true := by
  have hinfo : ∀ m : Media, images_only m = true →
      images_only (scenario_looter.get_post_info m.shortcode) = true := by
    intro m _
    show images_only (scenario_info m.shortcode) = true
    unfold scenario_info
    by_cases hb : (m.shortcode == "sidecar1") = true
    · rw [if_pos hb]
      rfl
    · rw [if_neg hb]
      rfl
  have h := fill_queue_satisfies_condition scenario_looter empty_dest
    [img1, sidecar1] none false images_only hinfo
  exact ⟨h.1, (h.2 img1 (by decide)).1 (by decide)⟩

/-- C2: with `new_only` set, the fill halts at the first item that reaches
the existence check with an already-existing artifact (position `p` is the
length of `pre`): the whole operation stops there, the existing item is not
enqueued, nothing after it is consumed (the result does not depend on
`post`), and the returned count is the number of matching items strictly
before it.  "Matching" is `acceptable`: per §4.3 the existence check of step
4 is reached only by items that passed the condition (step 1) and sidecar
pruning (step 3), and the items before `p` have no pre-existing artifact. -/
theorem fill_new_only_stops_at_existing (L : InstaLooter) (destination : FS)
    (condition : Media → Bool) (media_count : Option Nat)
    (pre : List Media) (e : Media) (post : List Media)
    (hpre : ∀ m ∈ pre, acceptable L condition m = true →
      destination.exists_ (L.file (processed L condition m)) = false)
    (hacc : acceptable L condition e = true)
    (hex : destination.exists_ (L.file (processed L condition e)) = true)
    (hmc : ∀ k, media_count = some k →
      pre.countP (acceptable L condition) < k) :
    fill_media_queue L [] destination (pre ++ e :: post) media_count true
        (some condition)
      = ((pre.filter (acceptable L condition)).map (processed L condition),
         pre.countP (acceptable L condition)) := by
  have h := fill_loop_new_only_halts L destination condition media_count e
    hacc hex pre post [] 0 hpre (by intro k hk; simpa using hmc k hk)
  simpa [fill_media_queue] using h

/-- Witness for C2: the §8 scenario with `new_only = True` accepts `img1`
only and halts at `img2`, whatever follows. -/
theorem fill_new_only_stops_at_existing_witness :
    fill_media_queue scenario_looter [] scenario_dest scenario_medias
        (some 10) true (some images_only)
      = ([img1], 1) := by
  have hmc : ∀ k, (some 10 : Option Nat) = some k →
      List.countP (acceptable scenario_looter images_only) [img1, vid1] < k := by
    intro k hk
    cases hk
    decide
  have heq : scenario_medias = [img1, vid1] ++ img2 :: [img3, sidecar1] := rfl
  rw [heq, fill_new_only_stops_at_existing scenario_looter scenario_dest
    images_only (some 10) [img1, vid1] img2 [img3, sidecar1] (by decide)
    (by decide) (by decide) hmc]
  decide

/-- C3 counterexample: the claim fails at `media_count = 0`.  The sequence
`[img1]` has at least zero matching items, yet the returned count is 1, not
0: the `break` of lines 584-585 runs only after a record was already
enqueued and counted. -/
theorem media_count_zero_not_exact :
    fill_media_queue scenario_looter [] empty_dest [img1] (some 0) false
        (some images_only)
      = ([img1], 1)
    ∧ (fill_media_queue scenario_looter [] empty_dest [img1] (some 0) false
        (some images_only)).2 ≠ 0 := by
  decide

/-- C3 (amended): for every k ≥ 1, when `media_count = k`, `new_only` is
unset and a prefix of the sequence already holds at least k matching
(acceptable) items, the fill returns exactly k, the queue holds exactly the
processed forms of the first k matching items (the k-th accepted item is the
last one enqueued), and nothing after that prefix is consumed (the result
does not depend on `post`). -/
theorem fill_media_count_exact (L : InstaLooter) (destination : FS)
    (condition : Media → Bool) (k : Nat) (pre post : List Media)
    (hk : 1 ≤ k)
    (hcount : k ≤ pre.countP (acceptable L condition)) :
    fill_media_queue L [] destination (pre ++ post) (some k) false
        (some condition)
      = (((pre.filter (acceptable L condition)).take k).map
            (processed L condition),
         k) := by
  have h := fill_loop_count_reach L destination condition k pre post [] 0
    (by omega) (by simpa using hcount)
  simpa [fill_media_queue] using h

/-- Witness for C3 (amended) at k = 2: the fill stops right after the second
acceptable item and returns 2. -/
theorem fill_media_count_exact_witness :
    fill_media_queue scenario_looter [] scenario_dest
        ([img1, vid1, img2] ++ [img3, sidecar1]) (some 2) false
        (some images_only)
      = ([img1, img2], 2) := by
  rw [fill_media_count_exact scenario_looter scenario_dest images_only 2
    [img1, vid1, img2] [img3, sidecar1] (by omega) (by decide)]
  decide

/-- C4: on the §8 scenario sequence with the images-only condition,
`media_count = 10` and `new_only` unset, `_fill_media_queue` enqueues exactly
`img1`, `img2`, `img3` and `sidecar1` with its video child pruned, in that
order, and returns 4: `vid1` is rejected by the condition, the already
existing `img2` is still enqueued, and `sidecar1` is kept because one child
remains. -/
theorem scenario_fill_accepts_four :
    fill_media_queue scenario_looter [] scenario_dest scenario_medias
        (some 10) false (some images_only)
      = ([img1, img2, img3, sidecar1.withEdges [child_img]], 4) := by
  decide

/-- C5 evaluation at the failing input: `extended_dump` is stored by
`__init__` (line 238) but never consulted by `_fill_media_queue` — the
refetch of lines 559-561 depends only on `namegen.needs_extended` and the
`__typename` field.  A looter built with `extended_dump=True` whose name
generator needs nothing extended enqueues a lightweight `GraphImage` summary
as-is: the queued record is the summary itself, not the (different) detailed
form the remote oracle would return. -/
theorem extended_dump_has_no_effect :
    c5_looter.extended_dump = true
    ∧ c5_looter.needs_extended img1 = false
    ∧ fill_media_queue c5_looter [] empty_dest [img1] none false
        (some (fun _ => true))
      = ([img1], 1)
    ∧ img1 ≠ c5_looter.get_post_info img1.shortcode := by
  decide

/-- C6 counterexample: a `GraphSidecar` record that fails the top-level
condition is rejected immediately by the `filter` of line 557, even though it
has a child matching the condition — the claim says such a record is kept by
virtue of its children. -/
theorem sidecar_rejected_by_top_condition :
    images_only sidecar_v = false
    ∧ prune_edges images_only sidecar_v.edges = [child_img]
    ∧ fill_media_queue scenario_looter [] scenario_dest [sidecar_v] none false
        (some images_only)
      = ([], 0) := by
  decide

/-- C6 (amended): failing the caller's condition causes immediate rejection
for every record, Sidecar included — the `filter` at line 557 precedes
everything else; a record that passes the condition and whose refetched form
is a Sidecar then has its children filtered against the condition and is
skipped only when no children remain. -/
theorem condition_rejects_sidecars_too (L : InstaLooter) (destination : FS)
    (condition : Media → Bool) (new_only : Bool) (media : Media) :
    (condition media = false →
      fill_step L destination condition new_only media = .skip)
    ∧ (condition media = false →
        ∀ (rest queue : List Media) (n : Nat) (media_count : Option Nat),
        fill_loop L destination condition media_count new_only
            (media :: rest) queue n
          = fill_loop L destination condition media_count new_only rest
              queue n)
    ∧ (condition media = true →
        (refetch L media).typename = "GraphSidecar" →
        prune_edges condition (refetch L media).edges = [] →
        fill_step L destination condition new_only media = .skip)
    ∧ (condition media = true →
        (refetch L media).typename = "GraphSidecar" →
        prune_edges condition (refetch L media).edges ≠ [] →
        fill_step L destination condition new_only media ≠ .skip) := by
  refine ⟨?_, ?_, ?_, ?_⟩
  · intro h
    simp [fill_step, h]
  · intro h rest queue n media_count
    rw [fill_loop]
    have hstep : fill_step L destination condition new_only media = .skip := by
      simp [fill_step, h]
    simp only [hstep]
  · intro hc hs hp
    rw [fill_step_eq]
    have hacc : acceptable L condition media = false := by
      simp [acceptable, survives, hc, hs, hp]
    simp [hacc]
  · intro hc hs hp
    rw [fill_step_eq]
    have hacc : acceptable L condition media = true := by
      simp [acceptable, survives, hc, hs]
      exact hp
    rw [if_pos hacc]
    split
    · simp
    · simp

/-- Witness for C6 (amended): the condition-failing video record and the
condition-failing sidecar are both skipped by the loop body. -/
theorem condition_rejects_sidecars_too_witness :
    fill_step scenario_looter scenario_dest images_only false vid1 = .skip
    ∧ fill_step scenario_looter scenario_dest images_only false sidecar_v
        = .skip := by
  constructor
  · exact (condition_rejects_sidecars_too scenario_looter scenario_dest
      images_only false vid1).1 (by decide)
  · exact (condition_rejects_sidecars_too scenario_looter scenario_dest
      images_only false sidecar_v).1 (by decide)

/-- C8 evaluation at the failing input: `InstaLooter.download` closes a
destination it opened from an FS URL string (lines 436-437), but the
`PostLooter.download` override computes `close_destination` (line 720) and
returns without ever closing the filesystem it opened. -/
theorem post_download_never_closes_destination :
    (post_looter_download scenario_looter open_fs_oracle
        (.url "osfs://downloads") img1 none none false).destination_closed
      = false
    ∧ (download scenario_looter open_fs_oracle (.url "osfs://downloads")
        [img1] none none false).destination_closed
      = true := by
  exact ⟨rfl, rfl⟩

/-- C7: `_init_workers` starts exactly `jobs` workers, and `_poison_workers`
enqueues exactly one Sentinel (`None`) per started worker, so the number of
Sentinels enqueued equals the number of workers started.  The worker loop and
the join are modelled from the spec (`worker.py` is not under `src/`): a
worker's run exits precisely when its stream holds a Sentinel — never before
one arrives — consuming exactly one Sentinel and touching nothing after it,
and the join call returns exactly when every worker's run has exited. -/
theorem workers_sentinels_and_join (L : InstaLooter) :
    (init_workers L).1.length = L.jobs
    ∧ (∀ (ws : List Nat) (q : List (Option Media)),
        (poison_workers ws q).countP (fun it => it.isNone)
          = q.countP (fun it => it.isNone) + ws.length)
    ∧ (∀ st : List (Option Media),
        (worker_run st).2.2 = true ↔ 1 ≤ st.countP (fun it => it.isNone))
    ∧ (∀ st : List (Option Media),
        (worker_run st).2.2 = true → (worker_run st).1 = 1)
    ∧ (∀ rest : List (Option Media),
        worker_run ((none : Option Media) :: rest) = (1, [], true))
    ∧ (∀ streams : List (List (Option Media)),
        (join_all streams = true ↔
          ∀ st ∈ streams, (worker_run st).2.2 = true)) := by
  refine ⟨by simp [init_workers], ?_, ?_, ?_, fun rest => rfl, ?_⟩
  · intro ws q
    unfold poison_workers
    rw [List.countP_append]
    congr 1
    rw [List.countP_map]
    have hcomp : ((fun it : Option Media => it.isNone)
        ∘ fun _ : Nat => (none : Option Media)) = fun _ => true := by
      funext x
      rfl
    rw [hcomp, List.countP_true]
  · intro st
    induction st with
    | nil => simp [worker_run]
    | cons it rest ih =>
      cases it with
      | none => simp [worker_run]
      | some m => simpa [worker_run] using ih
  · intro st
    induction st with
    | nil =>
      intro h
      simp [worker_run] at h
    | cons it rest ih =>
      cases it with
      | none => intro _; rfl
      | some m =>
        intro h
        have h2 : (worker_run rest).2.2 = true := by
          simpa [worker_run] using h
        simpa [worker_run] using ih h2
  · intro streams
    simp [join_all, List.all_eq_true]

/-- Witness for C7: a worker fed one record and one Sentinel consumes exactly
one Sentinel, and the join over two such terminated workers returns. -/
theorem workers_sentinels_and_join_witness :
    (worker_run [some img1, none]).1 = 1
    ∧ join_all [[some img1, none], [none]] = true := by
  constructor
  · exact (workers_sentinels_and_join scenario_looter).2.2.2.1
      [some img1, none] (by decide)
  · exact ((workers_sentinels_and_join scenario_looter).2.2.2.2.2
      [[some img1, none], [none]]).mpr (by decide)

/-- C9: when discovery yields zero accepted items, `download` issues the
"No medias found." warning of lines 425-426 and still returns the zero count
to the caller; the path raises nothing — the embedded `download` is a total
function on these inputs. -/
theorem download_warns_on_no_medias (L : InstaLooter) (open_fs : String → FS)
    (destination : Destination) (medias : List Media)
    (condition : Option (Media → Bool)) (media_count : Option Nat)
    (new_only : Bool)
    (h : (fill_media_queue L [] (init_destfs open_fs destination).1 medias
        media_count new_only condition).2 = 0) :
    (download L open_fs destination medias condition media_count
        new_only).warned = true
    ∧ (download L open_fs destination medias condition media_count
        new_only).medias_queued = 0 := by
  constructor
  · simp [download, h]
  · simp [download, h]

/-- Witness for C9: an empty media sequence queues nothing, warns, and
returns 0. -/
theorem download_warns_on_no_medias_witness :
    (download scenario_looter open_fs_oracle (.url "osfs://dest") [] none none
        false).warned = true
    ∧ (download scenario_looter open_fs_oracle (.url "osfs://dest") [] none
        none false).medias_queued = 0 :=
  download_warns_on_no_medias scenario_looter open_fs_oracle
    (.url "osfs://dest") [] none none false (by decide)

/-- C10: `videos_only=True` forces `get_videos` regardless of the argument
(line 232); the default condition of lines 546-553 accepts exactly the
videos under `videos_only`, exactly the non-videos when `get_videos` is
unset, and everything otherwise; and under `videos_only` with
`condition=None` every record `_fill_media_queue` enqueues — and every child
of an enqueued sidecar — has `is_video = true`, so no image is ever
enqueued.  Hypothesis `hinfo` is the §6 contract that the detailed form of a
video record is still a video. -/
theorem videos_only_excludes_images
    (am gv : Bool) (jobs : Nat) (dj dmo ed : Bool)
    (ne : Media → Bool) (file : Media → String) (gpi : String → Media)
    (destination : FS) (medias : List Media) (media_count : Option Nat)
    (new_only : Bool)
    (hinfo : ∀ m : Media, m.is_video = true →
      (gpi m.shortcode).is_video = true) :
    (InstaLooter.init am gv true jobs dj dmo ed ne file gpi).get_videos = true
    ∧ (∀ L : InstaLooter, L.videos_only = true →
        default_condition L = fun media => media.is_video)
    ∧ (∀ L : InstaLooter, L.videos_only = false → L.get_videos = false →
        default_condition L = fun media => !media.is_video)
    ∧ (∀ L : InstaLooter, L.videos_only = false → L.get_videos = true →
        default_condition L = fun _ => true)
    ∧ (∀ q ∈ (fill_media_queue
          (InstaLooter.init am gv true jobs dj dmo ed ne file gpi) []
          destination medias media_count new_only none).1,
        q.is_video = true
        ∧ (q.typename = "GraphSidecar" → ∀ c ∈ q.edges, c.is_video = true)) := by
  refine ⟨by simp [InstaLooter.init], ?_, ?_, ?_, ?_⟩
  · intro L h
    simp [default_condition, h]
  · intro L h1 h2
    simp [default_condition, h1, h2]
  · intro L h1 h2
    simp [default_condition, h1, h2]
  · intro q hq
    have hC : default_condition
        (InstaLooter.init am gv true jobs dj dmo ed ne file gpi)
      = fun media => media.is_video := by
      simp [default_condition, InstaLooter.init]
    simp only [fill_media_queue] at hq
    rw [hC] at hq
    refine fill_loop_invariant _ destination _ media_count new_only
      (fun q => q.is_video = true
        ∧ (q.typename = "GraphSidecar" → ∀ c ∈ q.edges, c.is_video = true))
      ?_ medias [] 0 (by simp) q hq
    intro media m2 hstep
    obtain ⟨hm2, hacc⟩ := fill_step_enq_inv _ _ _ _ _ _ hstep
    have hc : media.is_video = true := by
      simp [acceptable] at hacc
      exact hacc.1
    have hrv : (refetch (InstaLooter.init am gv true jobs dj dmo ed ne file
        gpi) media).is_video = true := by
      unfold refetch
      split
      · exact hinfo media hc
      · exact hc
    subst hm2
    rcases processed_cases _ (fun media => media.is_video) media with
      ⟨hpe, hs⟩ | ⟨hpe, hs⟩
    · rw [hpe]
      refine ⟨hrv, ?_⟩
      intro hcontra
      rw [hcontra] at hs
      simp at hs
    · rw [hpe]
      constructor
      · rw [Media.withEdges_is_video]
        exact hrv
      · intro _
        rw [Media.withEdges_edges]
        intro c hcmem
        exact (List.mem_filter.mp hcmem).2

/-- Witness for C10: a looter built with `videos_only=True` has
`get_videos = true`, and the video record it enqueues is a video. -/
theorem videos_only_excludes_images_witness :
    (InstaLooter.init false false true 4 false false false (fun _ => false)
        Media.shortcode c10_gpi).get_videos = true
    ∧ (Media.mk "GraphVideo" true "v1" []).is_video = true := by
  have h := videos_only_excludes_images false false 4 false false false
    (fun _ => false) Media.shortcode c10_gpi empty_dest [c10_vid] none false
    (fun m _ => rfl)
  refine ⟨h.1, ?_⟩
  exact (h.2.2.2.2 (Media.mk "GraphVideo" true "v1" []) (by decide)).1
